import Mathlib

/-!
Verification of the Meter command class codec (`src/lib/commandclass/MeterCC.ts`)
of the node-zwave-js fork under study.

Payloads are modelled as lists of natural numbers (the bytes of a Node `Buffer`,
each `< 256` on the wire).  The command-class primitives that `MeterCC.ts` imports
from `values/Primitive.ts` and `util/misc.ts` are not part of the sources under
study, so they are modelled from the specification (each such definition carries a
doc comment saying so).  Everything in `MeterCC.ts` itself is translated directly.
-/

/-- The RateType enum of MeterCC.ts: Unspecified = 0. -/
def RateType.Unspecified : Nat := 0

/-- The RateType enum of MeterCC.ts: Consumed = 1. -/
def RateType.Consumed : Nat := 1

/-- The RateType enum of MeterCC.ts: Produced = 2. -/
def RateType.Produced : Nat := 2

/-- Modelled from the spec: the decode-error taxonomy of section 7 (the
`validatePayload` helper of `util/misc.ts` is not under the sources studied).
`payloadTooShort need got` is the typed validation failure raised when a payload
is shorter than a required minimum length. -/
inductive DecodeError where
  | payloadTooShort (need got : Nat)
  | deserializationNotImplemented
deriving DecidableEq, Repr

/-- Modelled from the spec: `Maybe<number>` of `values/Primitive.ts` (not under
the sources studied): a numeric value or the distinguished unknown marker
(the `unknownNumber` sentinel). -/
inductive MaybeNum where
  | known (n : Nat)
  | unknown
deriving DecidableEq, Repr

instance {ε α : Type} [DecidableEq ε] [DecidableEq α] :
    DecidableEq (Except ε α) := fun a b =>
  match a, b with
  | .error e, .error f => decidable_of_iff (e = f) (by simp)
  | .ok x, .ok y => decidable_of_iff (x = y) (by simp)
  | .error _, .ok _ => isFalse nofun
  | .ok _, .error _ => isFalse nofun

/-- Big-endian unsigned integer value of a byte list. -/
def beUInt (bytes : List Nat) : Nat :=
  bytes.foldl (fun acc b => acc * 256 + b % 256) 0

/-- Two's-complement reinterpretation of an unsigned value of `size` bytes. -/
def toSigned (n size : Nat) : Int :=
  let m := n % 2 ^ (8 * size)
  if m < 2 ^ (8 * size - 1) then (m : Int) else (m : Int) - 2 ^ (8 * size)

/-- Modelled from the spec: precision field of the scaled-numeric descriptor byte,
bits [7:5]. -/
def descPrecision (d : Nat) : Nat := (d >>> 5) &&& 0b111

/-- Modelled from the spec: byte-size selector of the descriptor byte, bits [4:3]. -/
def descSizeSel (d : Nat) : Nat := (d >>> 3) &&& 0b11

/-- Modelled from the spec: the byte-size selector mapping 1 → 1 byte, 2 → 2 bytes,
3 → 4 bytes (selector 0 is not assigned by the spec and yields 0 bytes here). -/
def selectorSize : Nat → Nat
  | 1 => 1
  | 2 => 2
  | 3 => 4
  | _ => 0

/-- Byte size encoded by a descriptor byte. -/
def descSize (d : Nat) : Nat := selectorSize (descSizeSel d)

/-- Modelled from the spec: interpretation of the magnitude bytes following a
descriptor byte `d`: the first `descSize d` bytes, big-endian, two's-complement,
scaled by `10 ^ (− precision)`, i.e. the rational `magnitude / 10 ^ precision`. -/
def magValue (d : Nat) (bytes : List Nat) : Rat :=
  mkRat (toSigned (beUInt (bytes.take (descSize d))) (descSize d))
    (10 ^ descPrecision d)

/-- Result of the scaled-numeric codec. -/
structure FloatParse where
  value : Rat
  scale : Nat
  bytesRead : Nat
deriving DecidableEq, Repr

/-- Modelled from the spec: the scaled-numeric codec `parseFloatWithScale` of
`values/Primitive.ts` (not under the sources studied).  The first byte is a
descriptor: bits [7:5] precision, bits [4:3] byte-size selector, bits [2:0] the
low 3 bits of the scale selector; the magnitude follows as `byte_size` big-endian
two's-complement bytes; `value = magnitude × 10 ^ (− precision)` and
`bytesRead = 1 + byte_size`. -/
def parseFloatWithScale (p : List Nat) : FloatParse :=
  let d := p.getD 0 0
  { value := magValue d (p.drop 1)
    scale := d &&& 0b111
    bytesRead := 1 + descSize d }

/-- Modelled from the spec: the bitmask codec `parseBitMask` of
`values/Primitive.ts` (not under the sources studied): bit `k` of byte `i`
(least-significant bit first) set means index `i*8 + k + startValue` is present;
indices are produced in increasing order. -/
def parseBitMask (mask : List Nat) (startValue : Nat) : List Nat :=
  ((List.range (mask.length * 8)).filter
      (fun i => (mask.getD (i / 8) 0).testBit (i % 8))).map (· + startValue)

/-- Decoded fields of a MeterCCReport (MeterCC.ts lines 45–133).  `scale` is the
numeric scale index that the constructor passes to the external
`lookupMeterScale` resolver. -/
structure MeterReportData where
  type : Nat
  rateType : Nat
  value : Rat
  previousValue : Option Rat
  deltaTime : MaybeNum
  scale : Nat
deriving DecidableEq, Repr

/-- The MeterCCReport deserializing constructor (MeterCC.ts lines 47–102),
with `version` the negotiated command-class version. -/
def decodeMeterCCReport (version : Nat) (payload : List Nat) :
    Except DecodeError MeterReportData :=
  if payload.length < 2 then .error (.payloadTooShort 2 payload.length) else
  let b0 := payload.getD 0 0
  let type := b0 &&& 0b0011111
  let rateType := (b0 &&& 0b1100000) >>> 5
  let scale1Bit2 := (b0 &&& 0b10000000) >>> 7
  let fp := parseFloatWithScale (payload.drop 1)
  let offset := 2 + fp.bytesRead
  let scale1 := (scale1Bit2 <<< 2) ||| fp.scale
  if 2 ≤ version ∧ offset + 2 ≤ payload.length then
    let dtRaw := payload.getD offset 0 * 256 + payload.getD (offset + 1) 0
    let deltaTime := if dtRaw = 0xffff then MaybeNum.unknown else .known dtRaw
    let offset1 := offset + 2
    -- `this.deltaTime !== 0` also holds for the unknown marker, so the guard
    -- reduces to the raw 16-bit value being nonzero
    let hasPrev := dtRaw ≠ 0 ∧ offset1 + fp.bytesRead ≤ payload.length
    let previousValue :=
      if hasPrev then
        some (parseFloatWithScale (payload.getD 1 0 :: payload.drop offset1)).value
      else none
    let offset2 := if hasPrev then offset1 + fp.bytesRead else offset1
    let scale2 :=
      if 4 ≤ version ∧ scale1 = 7 ∧ offset2 + 1 ≤ payload.length then
        payload.getD offset2 0
      else 0
    .ok { type := type, rateType := rateType, value := fp.value
          previousValue := previousValue, deltaTime := deltaTime
          scale := if scale1 = 7 then scale1 + scale2 else scale1 }
  else
    .ok { type := type, rateType := rateType, value := fp.value
          previousValue := none, deltaTime := .known 0
          scale := if scale1 = 7 then scale1 + 0 else scale1 }

/-- Decoded fields of a MeterCCSupportedReport (MeterCC.ts lines 198–257). -/
structure MeterSupportedData where
  type : Nat
  supportsReset : Bool
  supportedScales : List Nat
  supportedRateTypes : List Nat
deriving DecidableEq, Repr

/-- The spread-form scale bitmask assembled by the MeterCCSupportedReport
constructor: payload byte 1 with its escape bit masked off, followed by the
`extraBytes` tail starting at byte 3 (MeterCC.ts lines 216–221). -/
def spreadScaleMask (payload : List Nat) : List Nat :=
  (payload.getD 1 0 &&& 0b1111111) :: (payload.drop 3).take (payload.getD 2 0)

/-- The MeterCCSupportedReport deserializing constructor (MeterCC.ts
lines 200–235). -/
def decodeMeterCCSupportedReport (payload : List Nat) :
    Except DecodeError MeterSupportedData :=
  if payload.length < 2 then .error (.payloadTooShort 2 payload.length) else
  let b0 := payload.getD 0 0
  let type := b0 &&& 0b0011111
  let supportsReset := b0 &&& 0b10000000 != 0
  let b1 := payload.getD 1 0
  let supportedRateTypes := parseBitMask [(b0 &&& 0b1100000) >>> 5] 1
  if b1 &&& 0b10000000 ≠ 0 then
    -- the bitmask is spread out
    if payload.length < 3 then .error (.payloadTooShort 3 payload.length) else
    let extraBytes := payload.getD 2 0
    if payload.length < 3 + extraBytes then
      .error (.payloadTooShort (3 + extraBytes) payload.length)
    else
      -- the first byte only has 7 data bits, so all following bits are
      -- reduced by 1
      .ok { type := type, supportsReset := supportsReset
            supportedScales :=
              (parseBitMask (spreadScaleMask payload) 0).map
                (fun scale => if 8 ≤ scale then scale - 1 else scale)
            supportedRateTypes := supportedRateTypes }
  else
    .ok { type := type, supportsReset := supportsReset
          supportedScales := parseBitMask [b1] 0
          supportedRateTypes := supportedRateTypes }

/-- A byte-store into a Node `Buffer`: out-of-range stores are ignored and the
stored value is truncated to a byte. -/
def writeByte (buf : List Nat) (i v : Nat) : List Nat :=
  if i < buf.length then buf.set i (v % 256) else buf

/-- The MeterCCGet serializer (MeterCC.ts lines 163–195), returning the
command payload it builds.  `scale` and `rateType` are the optional fields of
the Get command; `version` is the negotiated command-class version. -/
def serializeMeterCCGet (version : Nat) (scale rateType : Option Nat) : List Nat :=
  let s3 :=
    match scale with
    | none => (0, 0, 0)
    | some s =>
      if 4 ≤ version ∧ 7 ≤ s then (7, s >>> 3, 2)
      else if 3 ≤ version then (s &&& 0b111, 0, 1)
      else if 2 ≤ version then (s &&& 0b11, 0, 1)
      else (0, 0, 0)
  let scale1 := s3.1
  let scale2 := s3.2.1
  let r2 :=
    match rateType with
    | some r => if 4 ≤ version then (r &&& 0b11, max s3.2.2 1) else (0, s3.2.2)
    | none => (0, s3.2.2)
  let rateTypeFlags := r2.1
  let bufferLength := r2.2
  let p0 := writeByte (List.replicate bufferLength 0) 0
    ((rateTypeFlags <<< 6) ||| (scale1 <<< 3))
  if scale2 ≠ 0 then writeByte p0 1 scale2 else p0

section SanityChecks

example :
    decodeMeterCCReport 4 [128, 11, 5, 3] =
      .ok ⟨0, 0, 5, none, .known 0, 7⟩ := by decide

example :
    decodeMeterCCReport 4 [128, 11, 5, 0, 0, 0, 3] =
      .ok ⟨0, 0, 5, none, .known 0, 10⟩ := by decide

example : serializeMeterCCGet 4 (some 9) none = [56, 1] := by decide

example : serializeMeterCCGet 3 (some 9) none = [8] := by decide

example :
    decodeMeterCCSupportedReport [32, 133, 1, 3] =
      .ok ⟨0, false, [0, 2, 7, 8], [1]⟩ := by decide

example :
    decodeMeterCCReport 2 [0, 9, 7, 0, 0, 1, 42, 0] =
      .ok ⟨0, 0, 7, some 42, .known 1, 1⟩ := by decide

end SanityChecks

section BitmaskLemmas

/-- Membership in the decoded bitmask: index `p` is present iff some in-range raw
bit position `i` is set and `p = i + startValue`. -/
theorem mem_parseBitMask {mask : List Nat} {o p : Nat} :
    p ∈ parseBitMask mask o ↔
      ∃ i, i < mask.length * 8 ∧ (mask.getD (i / 8) 0).testBit (i % 8) ∧ p = i + o := by
  simp only [parseBitMask, List.mem_map, List.mem_filter, List.mem_range]
  constructor
  · rintro ⟨i, ⟨hi, hb⟩, rfl⟩
    exact ⟨i, hi, hb, rfl⟩
  · rintro ⟨i, hi, hb, rfl⟩
    exact ⟨i, ⟨hi, hb⟩, rfl⟩

/-- The bitmask codec produces its indices in strictly increasing order. -/
theorem parseBitMask_pairwise (mask : List Nat) (o : Nat) :
    (parseBitMask mask o).Pairwise (· < ·) := by
  refine List.Pairwise.map _ (fun a b h => Nat.add_lt_add_right h o) ?_
  exact (List.pairwise_lt_range _).sublist (List.filter_sublist _)

end BitmaskLemmas

/-- C6: any Meter Report or SupportedReport payload shorter than 2 bytes fails to
decode with the typed payload-too-short validation error, and no (partial)
command object is produced. -/
theorem meterDecode_payloadTooShort (version : Nat) (payload : List Nat)
    (h : payload.length < 2) :
    decodeMeterCCReport version payload =
      .error (.payloadTooShort 2 payload.length) ∧
    decodeMeterCCSupportedReport payload =
      .error (.payloadTooShort 2 payload.length) := by
  constructor
  · unfold decodeMeterCCReport
    rw [if_pos h]
  · unfold decodeMeterCCSupportedReport
    rw [if_pos h]

/-- Witness for C6 at the concrete one-byte payload `[5]`. -/
theorem meterDecode_payloadTooShort_witness :
    decodeMeterCCReport 4 [5] = .error (.payloadTooShort 2 1) ∧
    decodeMeterCCSupportedReport [5] = .error (.payloadTooShort 2 1) :=
  meterDecode_payloadTooShort 4 [5] (by decide)

/-- C1 counterexample: the version-4 Report payload `[0x80, 0x0B, 0x05, 0x03]` has
the high scale bit set, composed scale index 7 (high bit 1, low bits 3), one
magnitude byte and the trailing extension byte `0x03`, so the claim says it
decodes to scale index 10; it actually decodes to scale index 7, because the
extension byte is only read inside the delta-time branch, which this payload is
too short to enter.  (The truncated payload without the extension byte decodes
to scale 7, as the claim also says.) -/
theorem meterReportExtension_counterexample :
    decodeMeterCCReport 4 [128, 11, 5, 3] = .ok ⟨0, 0, 5, none, .known 0, 7⟩ ∧
    decodeMeterCCReport 4 [128, 11, 5] = .ok ⟨0, 0, 5, none, .known 0, 7⟩ ∧
    (7 : Nat) ≠ 10 := by decide

set_option maxRecDepth 100000 in
/-- C1 (amended): the scale-extension byte is read only when the version-2
delta-time block is present.  For any extension byte `e`, the version-4 Report
payload `[0x80, 0x0B, 0x05, pad, dtHi, dtLo, e]` (composed scale index 7, with
the two delta-time bytes at the offset the decoder uses) decodes to scale index
`7 + e`; the payload `[0x80, 0x0B, 0x05, e]`, whose extension byte sits directly
after the magnitude as in the original claim, decodes to scale index 7. -/
theorem meterReportExtension_amended (e : Nat) (he : e < 256) :
    decodeMeterCCReport 4 [128, 11, 5, 0, 0, 0, e] =
      .ok ⟨0, 0, 5, none, .known 0, 7 + e⟩ ∧
    decodeMeterCCReport 4 [128, 11, 5, e] = .ok ⟨0, 0, 5, none, .known 0, 7⟩ := by
  revert e
  decide

/-- Witness for C1 (amended) at extension byte 3: scale decodes to 10 with the
delta-time block present, and to 7 without it. -/
theorem meterReportExtension_amended_witness :
    decodeMeterCCReport 4 [128, 11, 5, 0, 0, 0, 3] =
      .ok ⟨0, 0, 5, none, .known 0, 7 + 3⟩ ∧
    decodeMeterCCReport 4 [128, 11, 5, 3] = .ok ⟨0, 0, 5, none, .known 0, 7⟩ :=
  meterReportExtension_amended 3 (by decide)

/-- C2 counterexample: at version 4 with requested scale 9, MeterCCGet serializes
to `[0b00111000, 1]` — the extension byte is `9 >>> 3 = 1`, not `9 − 7 = 2` as
the claim states. -/
theorem meterGetScale_counterexample :
    serializeMeterCCGet 4 (some 9) none = [56, 1] ∧ (1 : Nat) ≠ 9 - 7 := by decide

/-- C2 (amended): for every MeterCCGet serialized with version ≥ 4 and requested
scale `s ≥ 7`, the payload is exactly 2 bytes, the scale field of byte 0
(bits [5:3]) equals 7, and the second (extension) byte equals `(s >>> 3) % 256`
(floor division by 8, truncated to a byte) — which coincides with `s − 7` only
for `s ∈ \x7b7, 8\x7d`. -/
theorem meterGetScale_amended (version s : Nat) (rateType : Option Nat)
    (hv : 4 ≤ version) (hs : 7 ≤ s) :
    (serializeMeterCCGet version (some s) rateType).length = 2 ∧
    ((serializeMeterCCGet version (some s) rateType).getD 0 0 >>> 3) &&& 0b111 = 7 ∧
    (serializeMeterCCGet version (some s) rateType).getD 1 0 = (s >>> 3) % 256 := by
  have hcond : 4 ≤ version ∧ 7 ≤ s := ⟨hv, hs⟩
  have hbits : ∀ y, y < 4 → ((((y <<< 6) ||| (7 <<< 3)) % 256) >>> 3) &&& 7 = 7 := by
    decide
  have hrep : List.replicate 2 (0 : Nat) = [0, 0] := rfl
  have hmax : max 2 1 = 2 := rfl
  have hw0 : ∀ v : Nat, writeByte [0, 0] 0 v = [v % 256, 0] := fun v => by
    simp [writeByte, List.set_cons_zero]
  have hw1 : ∀ a v : Nat, writeByte [a, 0] 1 v = [a, v % 256] := fun a v => by
    simp [writeByte, List.set_cons_succ, List.set_cons_zero]
  have key : serializeMeterCCGet version (some s) rateType =
      [(((match rateType with
          | some r => if 4 ≤ version then r &&& 3 else 0
          | none => 0) <<< 6) ||| (7 <<< 3)) % 256, (s >>> 3) % 256] := by
    cases rateType with
    | none =>
      simp only [serializeMeterCCGet, if_pos hcond, hrep, hw0]
      split
      · rw [hw1]
      · rename_i h
        simp only [ne_eq, not_not] at h
        rw [h]
    | some r =>
      simp only [serializeMeterCCGet, if_pos hcond, if_pos hv, hmax, hrep, hw0]
      split
      · rw [hw1]
      · rename_i h
        simp only [ne_eq, not_not] at h
        rw [h]
  rw [key]
  refine ⟨rfl, ?_, ?_⟩
  · cases rateType with
    | none => exact hbits 0 (by decide)
    | some r =>
      simp only [if_pos hv]
      exact hbits _ (Nat.lt_succ_of_le Nat.and_le_right)
  · simp [List.getD]

/-- Witness for C2 (amended) at version 4, scale 9, no rate type. -/
theorem meterGetScale_amended_witness :
    (serializeMeterCCGet 4 (some 9) none).length = 2 ∧
    ((serializeMeterCCGet 4 (some 9) none).getD 0 0 >>> 3) &&& 0b111 = 7 ∧
    (serializeMeterCCGet 4 (some 9) none).getD 1 0 = (9 >>> 3) % 256 :=
  meterGetScale_amended 4 9 none (by decide) (by decide)

/-- C8 counterexample: at version 3 with requested scale 9 (≥ 7, no escape
support below version 4), MeterCCGet serialization does not fail fast: it
produces the 1-byte payload `[0b00001000]`, whose scale field is the silently
masked value `9 &&& 0b111 = 1`. -/
theorem meterGetClamp_counterexample :
    serializeMeterCCGet 3 (some 9) none = [(9 &&& 0b111) <<< 3] ∧
    (9 &&& 0b111 : Nat) = 1 := by decide

/-- C8 (amended): when a MeterCCGet is serialized with a requested scale ≥ 7
under a version below 4, the encoder does not fail: it silently masks the scale
to its low 3 bits at version 3, to its low 2 bits at version 2, and drops it
entirely (empty payload) at version 1. -/
theorem meterGetClamp_amended (s : Nat) (hs : 7 ≤ s) :
    serializeMeterCCGet 3 (some s) none = [((s &&& 0b111) <<< 3) % 256] ∧
    serializeMeterCCGet 2 (some s) none = [((s &&& 0b11) <<< 3) % 256] ∧
    serializeMeterCCGet 1 (some s) none = [] := by
  have hw0 : ∀ v : Nat, writeByte [0] 0 v = [v % 256] := fun v => by
    simp [writeByte, List.set_cons_zero]
  have hrep : List.replicate 1 (0 : Nat) = [0] := rfl
  have h3 : ¬(4 ≤ 3 ∧ 7 ≤ s) := by omega
  have h2 : ¬(4 ≤ 2 ∧ 7 ≤ s) := by omega
  have h1 : ¬(4 ≤ 1 ∧ 7 ≤ s) := by omega
  refine ⟨?_, ?_, ?_⟩
  · simp only [serializeMeterCCGet, if_neg h3, if_pos (by omega : 3 ≤ 3), hrep, hw0]
    split
    · simp_all
    · simp [Nat.zero_shiftLeft, Nat.zero_or]
  · simp only [serializeMeterCCGet, if_neg h2, if_neg (by omega : ¬3 ≤ 2),
      if_pos (by omega : 2 ≤ 2), hrep, hw0]
    split
    · simp_all
    · simp [Nat.zero_shiftLeft, Nat.zero_or]
  · simp only [serializeMeterCCGet, if_neg h1, if_neg (by omega : ¬3 ≤ 1),
      if_neg (by omega : ¬2 ≤ 1)]
    rfl

/-- Witness for C8 (amended) at scale 9: versions 3, 2, 1 produce the masked
payloads `[8]`, `[8]`, `[]` with no failure. -/
theorem meterGetClamp_amended_witness :
    serializeMeterCCGet 3 (some 9) none = [((9 &&& 0b111) <<< 3) % 256] ∧
    serializeMeterCCGet 2 (some 9) none = [((9 &&& 0b11) <<< 3) % 256] ∧
    serializeMeterCCGet 1 (some 9) none = [] :=
  meterGetClamp_amended 9 (by decide)

/-- The offset at which the Report decoder looks for the delta-time field:
the code's `offset = 2 + bytesRead` after parsing the current value. -/
def reportDTOffset (payload : List Nat) : Nat :=
  2 + (parseFloatWithScale (payload.drop 1)).bytesRead

theorem parseFloatWithScale_bytesRead (p : List Nat) :
    (parseFloatWithScale p).bytesRead = 1 + descSize (p.getD 0 0) := rfl

/-- C4: for every Meter Report decode with version ≥ 2 whose two delta-time
bytes are both `0x00`, the decode succeeds and `previousValue` is absent, no
matter how many trailing bytes remain in the payload. -/
theorem meterReportZeroDeltaTime (version : Nat) (payload : List Nat)
    (hv : 2 ≤ version)
    (hlen : reportDTOffset payload + 2 ≤ payload.length)
    (h1 : payload.getD (reportDTOffset payload) 0 = 0)
    (h2 : payload.getD (reportDTOffset payload + 1) 0 = 0) :
    ∃ r, decodeMeterCCReport version payload = .ok r ∧
      r.previousValue = none ∧ r.deltaTime = .known 0 := by
  have hoff : reportDTOffset payload =
      2 + (parseFloatWithScale (payload.drop 1)).bytesRead := rfl
  have hlen2 : ¬(payload.length < 2) := by
    rw [hoff, parseFloatWithScale_bytesRead] at hlen
    omega
  rw [hoff] at hlen h1 h2
  simp only [decodeMeterCCReport, if_neg hlen2, if_pos (⟨hv, hlen⟩ : 2 ≤ version ∧ _)]
  rw [h1, h2]
  norm_num

/-- Witness for C4: a version-2 payload with zero delta-time and two extra
trailing bytes (enough to parse a previous value) still decodes with
`previousValue` absent. -/
theorem meterReportZeroDeltaTime_witness :
    ∃ r, decodeMeterCCReport 2 [0, 9, 7, 0, 0, 0, 99, 99] = .ok r ∧
      r.previousValue = none ∧ r.deltaTime = .known 0 :=
  meterReportZeroDeltaTime 2 [0, 9, 7, 0, 0, 0, 99, 99]
    (by decide) (by decide) (by decide) (by decide)

/-- C5: for every Meter Report decode with version ≥ 2 and delta-time bytes
`0xFF 0xFF`, the decode succeeds and `deltaTime` is the distinguished unknown
marker — not the number 65535 and not a decode error. -/
theorem meterReportUnknownDeltaTime (version : Nat) (payload : List Nat)
    (hv : 2 ≤ version)
    (hlen : reportDTOffset payload + 2 ≤ payload.length)
    (h1 : payload.getD (reportDTOffset payload) 0 = 0xff)
    (h2 : payload.getD (reportDTOffset payload + 1) 0 = 0xff) :
    ∃ r, decodeMeterCCReport version payload = .ok r ∧
      r.deltaTime = .unknown ∧ r.deltaTime ≠ .known 65535 := by
  have hoff : reportDTOffset payload =
      2 + (parseFloatWithScale (payload.drop 1)).bytesRead := rfl
  have hlen2 : ¬(payload.length < 2) := by
    rw [hoff, parseFloatWithScale_bytesRead] at hlen
    omega
  rw [hoff] at hlen h1 h2
  simp only [decodeMeterCCReport, if_neg hlen2, if_pos (⟨hv, hlen⟩ : 2 ≤ version ∧ _)]
  rw [h1, h2]
  norm_num
  decide

/-- Witness for C5 at a concrete version-2 payload ending in `0xFF 0xFF`. -/
theorem meterReportUnknownDeltaTime_witness :
    ∃ r, decodeMeterCCReport 2 [0, 9, 7, 0, 255, 255] = .ok r ∧
      r.deltaTime = .unknown ∧ r.deltaTime ≠ .known 65535 :=
  meterReportUnknownDeltaTime 2 [0, 9, 7, 0, 255, 255]
    (by decide) (by decide) (by decide) (by decide)

/-- C9: every successfully decoded Meter Report has a defined `deltaTime`; in
particular, when the version is below 2 or fewer than 2 bytes remain at the
delta-time offset, `deltaTime` is 0 (not undefined, not the unknown marker) and
`previousValue` is absent. -/
theorem meterReportDeltaTimeDefault (version : Nat) (payload : List Nat)
    (r : MeterReportData)
    (hok : decodeMeterCCReport version payload = .ok r)
    (h : version < 2 ∨ payload.length < reportDTOffset payload + 2) :
    r.deltaTime = .known 0 ∧ r.previousValue = none := by
  have hoff : reportDTOffset payload =
      2 + (parseFloatWithScale (payload.drop 1)).bytesRead := rfl
  rw [hoff] at h
  simp only [decodeMeterCCReport] at hok
  split at hok
  · exact absurd hok (by simp)
  · split at hok
    · rename_i hc
      exact absurd hc (by omega)
    · simp only [Except.ok.injEq] at hok
      subst hok
      exact ⟨rfl, rfl⟩

/-- Witness for C9: a version-1 Report decode yields `deltaTime = 0` and no
previous value. -/
theorem meterReportDeltaTimeDefault_witness :
    (⟨0, 0, 7, none, .known 0, 1⟩ : MeterReportData).deltaTime = .known 0 ∧
    (⟨0, 0, 7, none, .known 0, 1⟩ : MeterReportData).previousValue = none :=
  meterReportDeltaTimeDefault 1 [0, 9, 7] ⟨0, 0, 7, none, .known 0, 1⟩
    (by decide) (Or.inl (by decide))

theorem parseFloatWithScale_value (p : List Nat) :
    (parseFloatWithScale p).value = magValue (p.getD 0 0) (p.drop 1) := rfl

/-- C7: whenever a Meter Report decode produces a `previousValue`, that value is
parsed against byte 1 of the original payload — the current value's descriptor
byte — applied to the magnitude bytes at the current offset, and the current
value is parsed against the very same descriptor byte applied to the magnitude
bytes at offset 2: the two share precision, byte size and scale bits and differ
only in their magnitude bytes. -/
theorem meterReportPrevDescriptor (version : Nat) (payload : List Nat)
    (r : MeterReportData) (pv : Rat)
    (hok : decodeMeterCCReport version payload = .ok r)
    (hprev : r.previousValue = some pv) :
    pv = magValue (payload.getD 1 0)
      (payload.drop (reportDTOffset payload + 2)) ∧
    r.value = magValue (payload.getD 1 0) (payload.drop 2) := by
  have hoff : reportDTOffset payload =
      2 + (parseFloatWithScale (payload.drop 1)).bytesRead := rfl
  have hget : (payload.drop 1).getD 0 0 = payload.getD 1 0 := by
    simp [List.getD_eq_getElem?_getD, List.getElem?_drop]
  have hdrop : (payload.drop 1).drop 1 = payload.drop 2 := by
    rw [List.drop_drop]
  rw [hoff]
  simp only [decodeMeterCCReport] at hok
  split at hok
  · exact absurd hok (by simp)
  · split at hok
    · simp only [Except.ok.injEq] at hok
      subst hok
      dsimp only at hprev ⊢
      split at hprev
      · simp only [Option.some.injEq] at hprev
        subst hprev
        refine ⟨?_, ?_⟩
        · rw [parseFloatWithScale_value]
          simp only [List.getD_cons_zero, List.drop_succ_cons, List.drop_zero]
        · rw [parseFloatWithScale_value, hget, hdrop]
      · exact absurd hprev (by simp)
    · simp only [Except.ok.injEq] at hok
      subst hok
      dsimp only at hprev
      exact absurd hprev (by simp)

/-- Witness for C7: a version-2 payload whose previous value 42 is decoded with
the current value's descriptor byte `0x09` (size 1, precision 0). -/
theorem meterReportPrevDescriptor_witness :
    (42 : Rat) = magValue (([0, 9, 7, 0, 0, 1, 42, 0] : List Nat).getD 1 0)
      (([0, 9, 7, 0, 0, 1, 42, 0] : List Nat).drop
        (reportDTOffset [0, 9, 7, 0, 0, 1, 42, 0] + 2)) ∧
    (⟨0, 0, 7, some 42, .known 1, 1⟩ : MeterReportData).value =
      magValue (([0, 9, 7, 0, 0, 1, 42, 0] : List Nat).getD 1 0)
        (([0, 9, 7, 0, 0, 1, 42, 0] : List Nat).drop 2) :=
  meterReportPrevDescriptor 2 [0, 9, 7, 0, 0, 1, 42, 0]
    ⟨0, 0, 7, some 42, .known 1, 1⟩ 42 (by decide) rfl

theorem mem_parseBitMask_zero {mask : List Nat} {p : Nat} :
    p ∈ parseBitMask mask 0 ↔
      p < mask.length * 8 ∧ (mask.getD (p / 8) 0).testBit (p % 8) := by
  rw [mem_parseBitMask]
  constructor
  · rintro ⟨i, hi, hb, rfl⟩
    exact ⟨hi, hb⟩
  · rintro ⟨hp, hb⟩
    exact ⟨p, hp, hb, (Nat.add_zero p).symm⟩

theorem mem_spreadScalesMap (h : Nat) (t : List Nat) (hh : h < 128) (p : Nat) :
    (p ∈ (parseBitMask (h :: t) 0).map (fun s => if 8 ≤ s then s - 1 else s)) ↔
      ((p ≤ 6 ∧ h.testBit p) ∨
       (7 ≤ p ∧ p + 1 < (1 + t.length) * 8 ∧
         ((h :: t).getD ((p + 1) / 8) 0).testBit ((p + 1) % 8))) := by
  rw [List.mem_map]
  constructor
  · rintro ⟨s, hs, rfl⟩
    rw [mem_parseBitMask_zero] at hs
    obtain ⟨hrange, hb⟩ := hs
    rcases Nat.lt_or_ge s 8 with h8 | h8
    · have hne : s ≠ 7 := by
        rintro rfl
        rw [(by norm_num : (7 : Nat) / 8 = 0), (by norm_num : (7 : Nat) % 8 = 7)] at hb
        rw [List.getD_cons_zero, Nat.testBit_eq_false_of_lt hh] at hb
        exact absurd hb (by simp)
      left
      rw [if_neg (by omega)]
      refine ⟨by omega, ?_⟩
      rwa [Nat.div_eq_of_lt h8, Nat.mod_eq_of_lt h8, List.getD_cons_zero] at hb
    · right
      rw [if_pos h8]
      simp only [List.length_cons] at hrange
      refine ⟨by omega, by omega, ?_⟩
      have : s - 1 + 1 = s := by omega
      rw [this]
      exact hb
  · rintro (⟨hp, hb⟩ | ⟨hp, hrange, hb⟩)
    · refine ⟨p, ?_, if_neg (by omega)⟩
      rw [mem_parseBitMask_zero]
      refine ⟨by simp [List.length_cons]; omega, ?_⟩
      rwa [Nat.div_eq_of_lt (by omega), Nat.mod_eq_of_lt (by omega), List.getD_cons_zero]
    · refine ⟨p + 1, ?_, ?_⟩
      · rw [mem_parseBitMask_zero]
        exact ⟨by simp [List.length_cons]; omega, hb⟩
      · rw [if_pos (by omega)]
        omega

theorem parseBitMask_nodup (mask : List Nat) (o : Nat) :
    (parseBitMask mask o).Nodup :=
  List.Pairwise.imp (fun h => Nat.ne_of_lt h) (parseBitMask_pairwise mask o)

theorem pairwise_spreadShift (l : List Nat) (hl : l.Pairwise (· < ·))
    (h7 : ∀ x ∈ l, x ≠ 7) :
    (l.map (fun s => if 8 ≤ s then s - 1 else s)).Pairwise (· < ·) := by
  induction l with
  | nil => simp
  | cons a tl ih =>
    rw [List.pairwise_cons] at hl
    rw [List.map_cons, List.pairwise_cons]
    refine ⟨?_, ih hl.2 (fun x hx => h7 x (List.mem_cons_of_mem a hx))⟩
    intro b hb
    rw [List.mem_map] at hb
    obtain ⟨c, hc, rfl⟩ := hb
    have hac := hl.1 c hc
    have ha7 := h7 a (List.mem_cons_self a tl)
    have hc7 := h7 c (List.mem_cons_of_mem a hc)
    split <;> split <;> omega

theorem spreadScaleMask_not7 (payload : List Nat) :
    7 ∉ parseBitMask (spreadScaleMask payload) 0 := by
  intro hx
  rw [mem_parseBitMask_zero] at hx
  obtain ⟨-, hb⟩ := hx
  rw [(by norm_num : (7 : Nat) / 8 = 0), (by norm_num : (7 : Nat) % 8 = 7)] at hb
  have hlt : payload.getD 1 0 &&& 0b1111111 < 128 :=
    Nat.lt_succ_of_le Nat.and_le_right
  rw [spreadScaleMask, List.getD_cons_zero, Nat.testBit_eq_false_of_lt hlt] at hb
  exact absurd hb (by simp)

/-- C3: for every Meter SupportedReport payload in the spread bitmask form, the
decoded supported-scales set maps every raw bit position ≥ 8 of the concatenated
masked bitmask to index position − 1 while positions < 8 stay unchanged: index
`p ≤ 6` is present iff bit `p` of the masked first byte is set, and index
`p ≥ 7` is present iff raw bit `p + 1` of the mask is set.  Raw position 7 (the
escape bit, masked off) never appears, so logical scale index 8 (raw bit 9)
never collides with index 7 (raw bit 8). -/
theorem meterSupportedSpreadScales (payload : List Nat) (r : MeterSupportedData)
    (hok : decodeMeterCCSupportedReport payload = .ok r)
    (hspread : payload.getD 1 0 &&& 0b10000000 ≠ 0) :
    (∀ p, p ∈ r.supportedScales ↔
        ((p ≤ 6 ∧ (payload.getD 1 0 &&& 0b1111111).testBit p) ∨
         (7 ≤ p ∧ p + 1 < (1 + payload.getD 2 0) * 8 ∧
           ((spreadScaleMask payload).getD ((p + 1) / 8) 0).testBit ((p + 1) % 8)))) ∧
    7 ∉ parseBitMask (spreadScaleMask payload) 0 := by
  refine ⟨?_, spreadScaleMask_not7 payload⟩
  have hlen2 : ¬ payload.length < 2 := by
    intro hl
    rw [decodeMeterCCSupportedReport, if_pos hl] at hok
    exact absurd hok (by simp)
  have hlen3 : ¬ payload.length < 3 := by
    intro hl
    simp only [decodeMeterCCSupportedReport, if_neg hlen2, if_pos hspread,
      if_pos hl] at hok
    exact absurd hok (by simp)
  have hlen3e : ¬ payload.length < 3 + payload.getD 2 0 := by
    intro hl
    simp only [decodeMeterCCSupportedReport, if_neg hlen2, if_pos hspread,
      if_neg hlen3, if_pos hl] at hok
    exact absurd hok (by simp)
  simp only [decodeMeterCCSupportedReport, if_neg hlen2, if_pos hspread,
    if_neg hlen3, if_neg hlen3e, Except.ok.injEq] at hok
  subst hok
  intro p
  dsimp only
  have htlen : ((payload.drop 3).take (payload.getD 2 0)).length = payload.getD 2 0 := by
    rw [List.length_take, List.length_drop]
    omega
  have hh : payload.getD 1 0 &&& 0b1111111 < 128 :=
    Nat.lt_succ_of_le Nat.and_le_right
  have hmem := mem_spreadScalesMap (payload.getD 1 0 &&& 0b1111111)
    ((payload.drop 3).take (payload.getD 2 0)) hh p
  rw [htlen] at hmem
  exact hmem

/-- C10: every successfully decoded Meter SupportedReport has rate types drawn
only from {Consumed, Produced} (the Unspecified rate type, index 0, never
appears because the 2-bit field is parsed as a bitmask with index origin 1) and
a duplicate-free supported-scales list. -/
theorem meterSupportedInvariants (payload : List Nat) (r : MeterSupportedData)
    (hok : decodeMeterCCSupportedReport payload = .ok r) :
    (∀ t ∈ r.supportedRateTypes, t = RateType.Consumed ∨ t = RateType.Produced) ∧
    r.supportedScales.Nodup := by
  have hlen2 : ¬ payload.length < 2 := by
    intro hl
    rw [decodeMeterCCSupportedReport, if_pos hl] at hok
    exact absurd hok (by simp)
  have hrt : ∀ t ∈ parseBitMask [(payload.getD 0 0 &&& 0b1100000) >>> 5] 1,
      t = RateType.Consumed ∨ t = RateType.Produced := by
    intro t ht
    rw [mem_parseBitMask] at ht
    obtain ⟨i, hi, hb, rfl⟩ := ht
    have hi8 : i < 8 := by simpa using hi
    rw [Nat.div_eq_of_lt hi8, Nat.mod_eq_of_lt hi8, List.getD_cons_zero] at hb
    have hv : (payload.getD 0 0 &&& 0b1100000) >>> 5 < 4 := by
      have h96 : payload.getD 0 0 &&& 0b1100000 ≤ 96 := Nat.and_le_right
      omega
    have hi2 : i < 2 := by
      by_contra hge
      push_neg at hge
      have h4 : (payload.getD 0 0 &&& 0b1100000) >>> 5 < 2 ^ i :=
        lt_of_lt_of_le hv (by
          calc (4 : Nat) = 2 ^ 2 := by norm_num
            _ ≤ 2 ^ i := Nat.pow_le_pow_right (by norm_num) hge)
      rw [Nat.testBit_eq_false_of_lt h4] at hb
      exact absurd hb (by simp)
    unfold RateType.Consumed RateType.Produced
    omega
  by_cases hspread : payload.getD 1 0 &&& 0b10000000 ≠ 0
  · have hlen3 : ¬ payload.length < 3 := by
      intro hl
      simp only [decodeMeterCCSupportedReport, if_neg hlen2, if_pos hspread,
        if_pos hl] at hok
      exact absurd hok (by simp)
    have hlen3e : ¬ payload.length < 3 + payload.getD 2 0 := by
      intro hl
      simp only [decodeMeterCCSupportedReport, if_neg hlen2, if_pos hspread,
        if_neg hlen3, if_pos hl] at hok
      exact absurd hok (by simp)
    simp only [decodeMeterCCSupportedReport, if_neg hlen2, if_pos hspread,
      if_neg hlen3, if_neg hlen3e, Except.ok.injEq] at hok
    subst hok
    refine ⟨hrt, ?_⟩
    dsimp only
    refine List.Pairwise.imp (fun h => Nat.ne_of_lt h) ?_
    refine pairwise_spreadShift _ (parseBitMask_pairwise _ 0) ?_
    intro x hx hx7
    subst hx7
    exact spreadScaleMask_not7 payload hx
  · simp only [decodeMeterCCSupportedReport, if_neg hlen2, if_neg hspread,
      Except.ok.injEq] at hok
    subst hok
    exact ⟨hrt, parseBitMask_nodup _ _⟩

/-- Witness for C3 at payload `[0x20, 0x85, 0x01, 0x03]` (spread form, extra
byte `0x03`): logical scale index 8 is present exactly because raw bit 9 of the
mask is set, and raw position 7 is never produced. -/
theorem meterSupportedSpreadScales_witness :
    ((8 : Nat) ∈ ([0, 2, 7, 8] : List Nat) ↔
      ((8 ≤ 6 ∧ (([32, 133, 1, 3] : List Nat).getD 1 0 &&& 0b1111111).testBit 8) ∨
       (7 ≤ 8 ∧ 8 + 1 < (1 + ([32, 133, 1, 3] : List Nat).getD 2 0) * 8 ∧
         ((spreadScaleMask [32, 133, 1, 3]).getD ((8 + 1) / 8) 0).testBit
           ((8 + 1) % 8)))) ∧
    7 ∉ parseBitMask (spreadScaleMask [32, 133, 1, 3]) 0 :=
  ⟨(meterSupportedSpreadScales [32, 133, 1, 3] ⟨0, false, [0, 2, 7, 8], [1]⟩
      (by decide) (by decide)).1 8,
   (meterSupportedSpreadScales [32, 133, 1, 3] ⟨0, false, [0, 2, 7, 8], [1]⟩
      (by decide) (by decide)).2⟩

/-- Witness for C10 at the same spread-form payload: the only decoded rate type
is Consumed, and the scales `[0, 2, 7, 8]` are duplicate-free. -/
theorem meterSupportedInvariants_witness :
    ((1 : Nat) = RateType.Consumed ∨ (1 : Nat) = RateType.Produced) ∧
    ([0, 2, 7, 8] : List Nat).Nodup :=
  ⟨(meterSupportedInvariants [32, 133, 1, 3] ⟨0, false, [0, 2, 7, 8], [1]⟩
      (by decide)).1 1 (by decide),
   (meterSupportedInvariants [32, 133, 1, 3] ⟨0, false, [0, 2, 7, 8], [1]⟩
      (by decide)).2⟩
